import Mathlib

/-!
Shallow embedding of `src/mac_mail_backup/converter.py` (class `MboxConverter`).

Bytes are modelled as `List Nat` (each element a byte value `< 256`); decoded
text (Python `str`) is modelled as `List Nat` of Unicode code points.  Fallible
operations return `Option`.  The embedding follows the Python source line by
line; comments cite the source lines.
-/

namespace MacMailBackup

/-- Python whitespace (`str.isspace` / regex `\s` for `str` patterns), as a
set of code points.  Used by `str.strip()`, `str.split()`, `int()` and the
`\s` atoms of the regexes in `converter.py`. -/
def wsChar (c : Nat) : Bool :=
  decide (c = 32 ∨ (9 ≤ c ∧ c ≤ 13) ∨ (28 ≤ c ∧ c ≤ 31) ∨ c = 133 ∨ c = 160 ∨
    c = 5760 ∨ (8192 ≤ c ∧ c ≤ 8202) ∨ c = 8232 ∨ c = 8233 ∨ c = 8239 ∨
    c = 8287 ∨ c = 12288)

/-- `str.strip()` with no argument: drop leading and trailing whitespace. -/
def pyStrip (l : List Nat) : List Nat :=
  ((l.dropWhile wsChar).reverse.dropWhile wsChar).reverse

/-- ASCII decimal digit. -/
def isDigit (c : Nat) : Bool := decide (48 ≤ c ∧ c ≤ 57)

/-- Python `int()` digit-group validity, after the first digit: a sequence of
digits in which a single underscore may appear between two digits
(`1_000` is legal, `1__0` / `1_` are not). -/
def digitsOkCore : List Nat → Bool
  | [] => true
  | c :: rest =>
    if c = 95 then
      match rest with
      | d :: rest2 => isDigit d && digitsOkCore rest2
      | [] => false
    else isDigit c && digitsOkCore rest

/-- Python `int()` digit-string validity: nonempty, starts with a digit,
underscores only between digits. -/
def digitsOk : List Nat → Bool
  | [] => false
  | d :: rest => isDigit d && digitsOkCore rest

/-- Numeric value of the digit characters of `l` (underscores skipped),
most significant first. -/
def digitsVal (l : List Nat) : Nat :=
  (l.filter isDigit).foldl (fun acc d => acc * 10 + (d - 48)) 0

/-- Model of `int(bs.decode('ascii').strip())` on a byte string `bs`
(converter.py line 50).  `none` models the `ValueError` /
`UnicodeDecodeError` branch: any byte `≥ 128` fails the ASCII decode; after
stripping whitespace the text must be an optionally signed digit string. -/
def pyIntStr : List Nat → Option Int
  | [] => none
  | c :: rest =>
    if c = 43 then (if digitsOk rest then some (digitsVal rest) else none)
    else if c = 45 then (if digitsOk rest then some (-(digitsVal rest : Int)) else none)
    else if digitsOk (c :: rest) then some (digitsVal (c :: rest)) else none

def pyIntOfBytes (bs : List Nat) : Option Int :=
  if bs.any (fun b => decide (128 ≤ b)) then none
  else pyIntStr (pyStrip bs)

/-- One endpoint of a Python slice `l[i:j]`: negative indices count from the
end, and the result is clamped into `[0, len]`. -/
def pySliceIdx (len : Nat) (i : Int) : Nat :=
  if i < 0 then (max 0 (len + i)).toNat else min i.toNat len

/-- Python slice `l[a:b]` (with possibly negative endpoints). -/
def pySlice (l : List Nat) (a b : Int) : List Nat :=
  (l.take (pySliceIdx l.length b)).drop (pySliceIdx l.length a)

/-- `MboxConverter.parse_emlx` (converter.py lines 39–62), applied to the
already-read file content.  Returns `none` when the content holds no newline
(`content.find(b'\n') == -1`); otherwise the declared byte count is parsed
from the first line, falling back to "all remaining bytes" when the count
does not parse, and the message is the slice
`content[first_newline+1 : first_newline+1+byte_count]`. -/
def parse_emlx (content : List Nat) : Option (List Nat) :=
  let first_newline := content.findIdx (fun b => b == 10)
  if first_newline = content.length then none
  else
    let byte_count : Int :=
      (pyIntOfBytes (content.take first_newline)).getD
        ((content.length : Int) - first_newline - 1)
    let email_start : Int := (first_newline : Int) + 1
    some (pySlice content email_start (email_start + byte_count))

/-- ASCII decimal rendering of a natural number (no sign, no padding),
as a byte string: the first line of a well-formed emlx container. -/
def natDecDigits (n : Nat) : List Nat :=
  if h : n < 10 then [48 + n]
  else natDecDigits (n / 10) ++ [48 + n % 10]
  decreasing_by exact Nat.div_lt_self (by omega) (by omega)

/-- Helper for `bytesSplitNl`: prepend a byte to the first chunk. -/
def consFirst (b : Nat) : List (List Nat) → List (List Nat)
  | s :: ss => (b :: s) :: ss
  | [] => [[b]]

/-- Model of Python `content.split(b'\n')` (converter.py line 132):
chunks between newline bytes, in order; `b''.split(b'\n') == [b'']`. -/
def bytesSplitNl : List Nat → List (List Nat)
  | [] => [[]]
  | b :: rest =>
    if b = 10 then [] :: bytesSplitNl rest
    else consFirst b (bytesSplitNl rest)

/-- Model of Python `b'\n'.join(parts)` (converter.py line 139). -/
def joinNl : List (List Nat) → List Nat
  | [] => []
  | [s] => s
  | s :: s2 :: ss => s ++ 10 :: joinNl (s2 :: ss)

/-- The per-line escaping step of `MboxConverter.escape_from_lines`
(converter.py lines 134–138): a line that starts with the five bytes
`From ` is replaced by `b'>From ' + line[5:]`; any other line is kept. -/
def escLine (line : List Nat) : List Nat :=
  if [70, 114, 111, 109, 32].isPrefixOf line then
    [62, 70, 114, 111, 109, 32] ++ line.drop 5
  else line

/-- `MboxConverter.escape_from_lines` (converter.py lines 119–139):
split on newlines, escape each line, rejoin with newlines. -/
def escape_from_lines (content : List Nat) : List Nat :=
  joinNl ((bytesSplitNl content).map escLine)

/-! ### Text codecs

`get_from_line` decodes the header section with
`header_section.decode('utf-8', errors='replace')` (converter.py line 80) and
the resulting envelope string is re-encoded with `from_line.encode('utf-8')`
(converter.py line 182). -/

/-- UTF-8 decoding with `errors='replace'`: each maximal valid prefix of a
multi-byte sequence that cannot be completed is replaced by a single U+FFFD
(65533); an invalid lead or stray continuation byte is replaced one byte at
a time.  Continuation ranges follow RFC 3629 (E0: A0–BF, ED: 80–9F,
F0: 90–BF, F4: 80–8F), as CPython implements. -/
def decodeUtf8Go : Nat → List Nat → List Nat
  | 0, _ => []
  | _ + 1, [] => []
  | fuel + 1, b :: rest =>
    if b < 128 then b :: decodeUtf8Go fuel rest
    else if b < 194 then 65533 :: decodeUtf8Go fuel rest
    else if b < 224 then
      match rest with
      | [] => [65533]
      | b2 :: rest2 =>
        if 128 ≤ b2 ∧ b2 ≤ 191 then
          ((b - 192) * 64 + (b2 - 128)) :: decodeUtf8Go fuel rest2
        else 65533 :: decodeUtf8Go fuel rest
    else if b < 240 then
      match rest with
      | [] => [65533]
      | b2 :: rest2 =>
        if (if b = 224 then 160 ≤ b2 ∧ b2 ≤ 191
            else if b = 237 then 128 ≤ b2 ∧ b2 ≤ 159
            else 128 ≤ b2 ∧ b2 ≤ 191) then
          match rest2 with
          | [] => [65533]
          | b3 :: rest3 =>
            if 128 ≤ b3 ∧ b3 ≤ 191 then
              ((b - 224) * 4096 + (b2 - 128) * 64 + (b3 - 128)) :: decodeUtf8Go fuel rest3
            else 65533 :: decodeUtf8Go fuel rest2
        else 65533 :: decodeUtf8Go fuel rest
    else if b < 245 then
      match rest with
      | [] => [65533]
      | b2 :: rest2 =>
        if (if b = 240 then 144 ≤ b2 ∧ b2 ≤ 191
            else if b = 244 then 128 ≤ b2 ∧ b2 ≤ 143
            else 128 ≤ b2 ∧ b2 ≤ 191) then
          match rest2 with
          | [] => [65533]
          | b3 :: rest3 =>
            if 128 ≤ b3 ∧ b3 ≤ 191 then
              match rest3 with
              | [] => [65533]
              | b4 :: rest4 =>
                if 128 ≤ b4 ∧ b4 ≤ 191 then
                  ((b - 240) * 262144 + (b2 - 128) * 4096 + (b3 - 128) * 64 + (b4 - 128))
                    :: decodeUtf8Go fuel rest4
                else 65533 :: decodeUtf8Go fuel rest3
            else 65533 :: decodeUtf8Go fuel rest2
        else 65533 :: decodeUtf8Go fuel rest
    else 65533 :: decodeUtf8Go fuel rest

/-- Entry point of the decoder: every step consumes at least one byte, so a
fuel of the input length is always sufficient (the fuel only serves to make
the recursion structural). -/
def decodeUtf8Replace (l : List Nat) : List Nat := decodeUtf8Go l.length l

/-- UTF-8 encoding of one code point (the relevant inputs here are the code
points produced by `decodeUtf8Replace`, which are never surrogates). -/
def utf8EncodeChar (c : Nat) : List Nat :=
  if c < 128 then [c]
  else if c < 2048 then [192 + c / 64, 128 + c % 64]
  else if c < 65536 then [224 + c / 4096, 128 + c / 64 % 64, 128 + c % 64]
  else [240 + c / 262144, 128 + c / 4096 % 64, 128 + c / 64 % 64, 128 + c % 64]

/-- UTF-8 encoding of a string of code points (`str.encode('utf-8')`). -/
def utf8Encode (l : List Nat) : List Nat := (l.map utf8EncodeChar).flatten

/-! ### Header scanning (converter.py lines 77–112)

The header section is `email_content.split(b'\n\n')[0]`, decoded permissively;
the `From`/`Date` fields are found with
`re.search(r'^Name:\s*(.+?)$', headers, re.MULTILINE | re.IGNORECASE)`. -/

/-- `email_content.split(b'\n\n')[0]` (converter.py line 79): the bytes
before the first occurrence of two consecutive newline bytes (the whole
content when there is none). -/
def takeUntilDoubleNl : List Nat → List Nat
  | [] => []
  | [b] => [b]
  | b :: b2 :: rest =>
    if b = 10 ∧ b2 = 10 then [] else b :: takeUntilDoubleNl (b2 :: rest)

/-- ASCII lower-casing, the case folding relevant to the `re.IGNORECASE`
matches of the ASCII patterns `From:` / `Date:`. -/
def lowerC (c : Nat) : Nat := if 65 ≤ c ∧ c ≤ 90 then c + 32 else c

/-- Case-insensitive prefix test against a lowercase ASCII pattern. -/
def startsWithCI (pat s : List Nat) : Bool := (s.take pat.length).map lowerC == pat

/-- Behaviour of the regex tail `\s*(.+?)$` on the text `t` following
`Name:`: the greedy `\s*` with backtracking and the lazy `(.+?)$` capture
exactly the run of non-newline characters that starts at the first
non-whitespace character (when one exists); when `t` is all whitespace, the
capture backtracks to the last character of `t` that is not a newline
(a single whitespace character), and fails when every character is a
newline or `t` is empty. -/
def matchValueTail (t : List Nat) : Option (List Nat) :=
  let w := (t.takeWhile wsChar).length
  if w < t.length then some ((t.drop w).takeWhile (fun c => c != 10))
  else
    match t.reverse.dropWhile (fun c => c == 10) with
    | [] => none
    | c :: _ => some [c]

/-- Scan for `re.search(r'^name\s*(.+?)$', ..., re.M | re.I)` over the
decoded header text: try every line start (position 0 or a position right
after a newline) in order; at a line that starts with `name`
(case-insensitively) the value tail must also match, otherwise the search
continues at later line starts. -/
def fhvAux (nm : List Nat) : List Nat → Bool → Option (List Nat)
  | s, true =>
    match (if startsWithCI nm s then matchValueTail (s.drop nm.length) else none) with
    | some v => some v
    | none =>
      match s with
      | [] => none
      | c :: rest => fhvAux nm rest (c == 10)
  | s, false =>
    match s with
    | [] => none
    | c :: rest => fhvAux nm rest (c == 10)

/-- First captured value of `^name\s*(.+?)$` in multiline ignore-case mode
(`name` is given in lowercase and ends with the colon). -/
def findHeaderValue (nm s : List Nat) : Option (List Nat) := fhvAux nm s true

/-- `re.search(r'<([^>]+)>', sender_raw)` (converter.py line 88): first `<`
followed by at least one non-`>` character and then a `>`; the capture is
the run between the brackets. -/
def searchAngle : List Nat → Option (List Nat)
  | [] => none
  | c :: rest =>
    if c = 60 then
      let seg := rest.takeWhile (fun x => x != 62)
      if seg.length ≠ 0 ∧ seg.length < rest.length then some seg else searchAngle rest
    else searchAngle rest

/-- Accumulator worker for `pySplitWs`: `acc` holds the reversed current
token. -/
def pySplitWsAux : List Nat → List Nat → List (List Nat)
  | [], acc => if acc.isEmpty then [] else [acc.reverse]
  | c :: rest, acc =>
    if wsChar c then
      (if acc.isEmpty then pySplitWsAux rest [] else acc.reverse :: pySplitWsAux rest [])
    else pySplitWsAux rest (c :: acc)

/-- Python `str.split()` with no argument: maximal runs of non-whitespace,
empty strings discarded. -/
def pySplitWs (l : List Nat) : List (List Nat) := pySplitWsAux l []

/-- First element of a token list, with an explicit default (the Python
source indexes `sender_raw.split()[0]`, which cannot fail on the branch
where it is evaluated). -/
def headTokenD (ps : List (List Nat)) (dflt : List Nat) : List Nat :=
  match ps with
  | t :: _ => t
  | [] => dflt

/-- The lowercase pattern `from:`. -/
def fromTag : List Nat := [102, 114, 111, 109, 58]

/-- The lowercase pattern `date:`. -/
def dateTag : List Nat := [100, 97, 116, 101, 58]

/-- The literal `MAILER-DAEMON`. -/
def mailerDaemon : List Nat := [77, 65, 73, 76, 69, 82, 45, 68, 65, 69, 77, 79, 78]

/-- Sender-token derivation of `MboxConverter.get_from_line`
(converter.py lines 83–93): default `MAILER-DAEMON`; on a `From` field, an
angle-bracketed address wins; otherwise a value containing `@` is used —
split at whitespace and truncated to its first token only when it contains
a space character. -/
def extractSender (headers : List Nat) : List Nat :=
  match findHeaderValue fromTag headers with
  | none => mailerDaemon
  | some cap =>
    let sender_raw := pyStrip cap
    match searchAngle sender_raw with
    | some addr => addr
    | none =>
      if sender_raw.contains 64 then
        (if sender_raw.contains 32 then headTokenD (pySplitWs sender_raw) [] else sender_raw)
      else mailerDaemon

/-! ### Date handling (converter.py lines 96–112)

`datetime.strptime(date_str[:31], fmt)` is tried against the four formats
`'%a, %d %b %Y %H:%M:%S %z'`, `'%d %b %Y %H:%M:%S %z'`,
`'%a, %d %b %Y %H:%M:%S'`, `'%d %b %Y %H:%M:%S'` in order; the first that
fully matches (and yields a constructible datetime) wins, and the result is
re-rendered with `strftime('%a %b %d %H:%M:%S %Y')`.  The parsers below
follow CPython's `_strptime` regexes (PEG-style; the alternation orders of
the numeric directives make backtracking irrelevant for these formats). -/

/-- A parsed naive timestamp (the `%z` offset never influences the rendered
layout, so it is not retained). -/
structure PyDateTime where
  year : Nat
  month : Nat
  day : Nat
  hour : Nat
  minute : Nat
  second : Nat
deriving DecidableEq, Repr

def isLeapYear (y : Nat) : Bool :=
  decide (y % 4 = 0 ∧ (y % 100 ≠ 0 ∨ y % 400 = 0))

def daysInMonth (y m : Nat) : Nat :=
  if m = 2 then (if isLeapYear y then 29 else 28)
  else if m = 4 ∨ m = 6 ∨ m = 9 ∨ m = 11 then 30
  else 31

/-- The `datetime(...)` constructor validation: `MINYEAR ≤ year ≤ MAXYEAR`,
valid month, day within the month, and in-range time fields (a leap second
parsed by `%S` is rejected here with `ValueError`, falling through to the
next format). -/
def mkDatetime (y mo d h mi s : Nat) : Option PyDateTime :=
  if 1 ≤ y ∧ y ≤ 9999 ∧ 1 ≤ mo ∧ mo ≤ 12 ∧ 1 ≤ d ∧ d ≤ daysInMonth y mo ∧
      h ≤ 23 ∧ mi ≤ 59 ∧ s ≤ 59 then
    some ⟨y, mo, d, h, mi, s⟩
  else none

/-- The lowercased abbreviated weekday names matched by `%a`. -/
def wdAbbrevs : List (List Nat) :=
  [[109, 111, 110], [116, 117, 101], [119, 101, 100], [116, 104, 117],
   [102, 114, 105], [115, 97, 116], [115, 117, 110]]

/-- The lowercased abbreviated month names matched by `%b`, in month order. -/
def moAbbrevs : List (List Nat) :=
  [[106, 97, 110], [102, 101, 98], [109, 97, 114], [97, 112, 114],
   [109, 97, 121], [106, 117, 110], [106, 117, 108], [97, 117, 103],
   [115, 101, 112], [111, 99, 116], [110, 111, 118], [100, 101, 99]]

/-- `%a`: one abbreviated weekday name, case-insensitively; the parsed
weekday is discarded by `datetime.strptime`. -/
def pWeekdayCI (s : List Nat) : Option (List Nat) :=
  if wdAbbrevs.contains ((s.take 3).map lowerC) then some (s.drop 3) else none

/-- `%b`: one abbreviated month name, case-insensitively, yielding the
month number. -/
def pMonthCI (s : List Nat) : Option (Nat × List Nat) :=
  match (moAbbrevs.indexOf? ((s.take 3).map lowerC)) with
  | some i => if ((s.take 3).map lowerC).length = 3 then some (i + 1, s.drop 3) else none
  | none => none

/-- One literal character of the format string. -/
def pLit (c : Nat) : List Nat → Option (List Nat)
  | x :: rest => if x = c then some rest else none
  | [] => none

/-- A whitespace character in the format string becomes `\s+`. -/
def pWsRun : List Nat → Option (List Nat)
  | c :: rest => if wsChar c then some (rest.dropWhile wsChar) else none
  | [] => none

/-- `%d`: the regex `(3[0-1]|[1-2]\d|0[1-9]|[1-9]| [1-9])`, alternatives
in order; the last alternative (a space then a nonzero digit) accepts a
space-padded day, though every `%d` here follows `\s+` or the start of the
stripped value, so it never fires on this program's inputs. -/
def pDay : List Nat → Option (Nat × List Nat)
  | a :: b :: rest =>
    if a = 51 ∧ (b = 48 ∨ b = 49) then some (30 + (b - 48), rest)
    else if (a = 49 ∨ a = 50) ∧ isDigit b then some ((a - 48) * 10 + (b - 48), rest)
    else if a = 48 ∧ 49 ≤ b ∧ b ≤ 57 then some (b - 48, rest)
    else if 49 ≤ a ∧ a ≤ 57 then some (a - 48, b :: rest)
    else if a = 32 ∧ 49 ≤ b ∧ b ≤ 57 then some (b - 48, rest)
    else none
  | [a] => if 49 ≤ a ∧ a ≤ 57 then some (a - 48, []) else none
  | [] => none

/-- `%H`: the regex `(2[0-3]|[0-1]\d|\d)`, alternatives in order. -/
def pHour : List Nat → Option (Nat × List Nat)
  | a :: b :: rest =>
    if a = 50 ∧ 48 ≤ b ∧ b ≤ 51 then some (20 + (b - 48), rest)
    else if (a = 48 ∨ a = 49) ∧ isDigit b then some ((a - 48) * 10 + (b - 48), rest)
    else if isDigit a then some (a - 48, b :: rest)
    else none
  | [a] => if isDigit a then some (a - 48, []) else none
  | [] => none

/-- `%M`: the regex `([0-5]\d|\d)`. -/
def pMinute : List Nat → Option (Nat × List Nat)
  | a :: b :: rest =>
    if 48 ≤ a ∧ a ≤ 53 ∧ isDigit b then some ((a - 48) * 10 + (b - 48), rest)
    else if isDigit a then some (a - 48, b :: rest)
    else none
  | [a] => if isDigit a then some (a - 48, []) else none
  | [] => none

/-- `%S`: the regex `(6[0-1]|[0-5]\d|\d)` (leap seconds parse here and are
rejected by the datetime constructor). -/
def pSecond : List Nat → Option (Nat × List Nat)
  | a :: b :: rest =>
    if a = 54 ∧ (b = 48 ∨ b = 49) then some (60 + (b - 48), rest)
    else if 48 ≤ a ∧ a ≤ 53 ∧ isDigit b then some ((a - 48) * 10 + (b - 48), rest)
    else if isDigit a then some (a - 48, b :: rest)
    else none
  | [a] => if isDigit a then some (a - 48, []) else none
  | [] => none

/-- `%Y`: exactly four digits. -/
def pYear4 : List Nat → Option (Nat × List Nat)
  | a :: b :: c :: d :: rest =>
    if isDigit a ∧ isDigit b ∧ isDigit c ∧ isDigit d then
      some ((a - 48) * 1000 + (b - 48) * 100 + (c - 48) * 10 + (d - 48), rest)
    else none
  | _ => none

/-- Two digits (`\d\d`), yielding their value. -/
def pTwoDigitsVal : List Nat → Option (Nat × List Nat)
  | a :: b :: rest =>
    if isDigit a ∧ isDigit b then some ((a - 48) * 10 + (b - 48), rest) else none
  | _ => none

/-- `[0-5]\d` — the minute and second pairs of the `%z` regex — yielding
the value. -/
def pSexaPairVal : List Nat → Option (Nat × List Nat)
  | a :: b :: rest =>
    if 48 ≤ a ∧ a ≤ 53 ∧ isDigit b then some ((a - 48) * 10 + (b - 48), rest) else none
  | _ => none

/-- `(\.\d{1,6})?`: an optional fraction, greedy up to six digits, yielding
the microsecond value (`_strptime` right-pads the digits with zeros to six
places) and the remaining input. -/
def pFracVal (s : List Nat) : Nat × List Nat :=
  match s with
  | 46 :: rest =>
    let ds := (rest.takeWhile isDigit).take 6
    if ds.length = 0 then (0, s)
    else (ds.foldl (fun acc d => acc * 10 + (d - 48)) 0 * 10 ^ (6 - ds.length),
          rest.drop ds.length)
  | _ => (0, s)

/-- `%z`: the regex `([+-]\d\d:?[0-5]\d(:?[0-5]\d(\.\d{1,6})?)?|(?-i:Z))`
followed by `_strptime`'s processing of the matched text.  That processing
raises `ValueError` — modelled as `none`, so the format falls through —
when the colons are used inconsistently (a colon after the hours but not
before the seconds raises `Inconsistent use of :`; a colon before the
seconds but not after the hours makes `int(z[5:7])` fail), and the
`timezone` constructor raises when the offset, microseconds included, is
not strictly within 24 hours. -/
def pZone : List Nat → Option (List Nat)
  | [] => none
  | c :: rest =>
    if c = 90 then some rest
    else if c = 43 ∨ c = 45 then
      match pTwoDigitsVal rest with
      | none => none
      | some (hh, r1) =>
        let colon1 : Bool := match r1 with | 58 :: _ => true | _ => false
        let r1b := if colon1 then r1.tail else r1
        match pSexaPairVal r1b with
        | none => none
        | some (mm, r2) =>
          let colon2 : Bool := match r2 with | 58 :: _ => true | _ => false
          let r2b := if colon2 then r2.tail else r2
          match pSexaPairVal r2b with
          | some (ss, r3) =>
            if colon1 = colon2 then
              let fr := pFracVal r3
              if (hh * 3600 + mm * 60 + ss) * 1000000 + fr.1 < 86400000000 then some fr.2
              else none
            else none
          | none =>
            if (hh * 3600 + mm * 60) * 1000000 < 86400000000 then some r2 else none
    else none

/-- The shared format tail `%d %b %Y %H:%M:%S`. -/
def pBody (s : List Nat) : Option ((Nat × Nat × Nat × Nat × Nat × Nat) × List Nat) := do
  let (d, s) ← pDay s
  let s ← pWsRun s
  let (mo, s) ← pMonthCI s
  let s ← pWsRun s
  let (y, s) ← pYear4 s
  let s ← pWsRun s
  let (h, s) ← pHour s
  let s ← pLit 58 s
  let (mi, s) ← pMinute s
  let s ← pLit 58 s
  let (sec, s) ← pSecond s
  some ((y, mo, d, h, mi, sec), s)

/-- `'%a, %d %b %Y %H:%M:%S %z'`; the whole string must be consumed. -/
def parseFmt1 (s : List Nat) : Option PyDateTime := do
  let s1 ← pWeekdayCI s
  let s2 ← pLit 44 s1
  let s3 ← pWsRun s2
  let vs ← pBody s3
  let s4 ← pWsRun vs.2
  let s5 ← pZone s4
  if s5 = [] then
    mkDatetime vs.1.1 vs.1.2.1 vs.1.2.2.1 vs.1.2.2.2.1 vs.1.2.2.2.2.1 vs.1.2.2.2.2.2
  else none

/-- `'%d %b %Y %H:%M:%S %z'`. -/
def parseFmt2 (s : List Nat) : Option PyDateTime := do
  let vs ← pBody s
  let s4 ← pWsRun vs.2
  let s5 ← pZone s4
  if s5 = [] then
    mkDatetime vs.1.1 vs.1.2.1 vs.1.2.2.1 vs.1.2.2.2.1 vs.1.2.2.2.2.1 vs.1.2.2.2.2.2
  else none

/-- `'%a, %d %b %Y %H:%M:%S'`. -/
def parseFmt3 (s : List Nat) : Option PyDateTime := do
  let s1 ← pWeekdayCI s
  let s2 ← pLit 44 s1
  let s3 ← pWsRun s2
  let vs ← pBody s3
  if vs.2 = [] then
    mkDatetime vs.1.1 vs.1.2.1 vs.1.2.2.1 vs.1.2.2.2.1 vs.1.2.2.2.2.1 vs.1.2.2.2.2.2
  else none

/-- `'%d %b %Y %H:%M:%S'`. -/
def parseFmt4 (s : List Nat) : Option PyDateTime := do
  let vs ← pBody s
  if vs.2 = [] then
    mkDatetime vs.1.1 vs.1.2.1 vs.1.2.2.1 vs.1.2.2.2.1 vs.1.2.2.2.2.1 vs.1.2.2.2.2.2
  else none

/-- The ordered format loop of converter.py lines 101–112. -/
def tryFormats (s : List Nat) : Option PyDateTime :=
  (parseFmt1 s).orElse fun _ =>
    (parseFmt2 s).orElse fun _ =>
      (parseFmt3 s).orElse fun _ => parseFmt4 s

/-- Sakamoto's day-of-week algorithm on the proleptic Gregorian calendar
(0 = Sunday), agreeing with `datetime.weekday()`'s rendering through `%a`. -/
def sakamotoAdj (m : Nat) : Nat :=
  [0, 3, 2, 5, 0, 3, 5, 1, 4, 6, 2, 4].getD (m - 1) 0

def weekdaySun0 (y m d : Nat) : Nat :=
  let y2 := if m < 3 then y - 1 else y
  (y2 + y2 / 4 - y2 / 100 + y2 / 400 + sakamotoAdj m + d) % 7

/-- `%a` rendering: index 0 is Sunday. -/
def wdNameOf (k : Nat) : List Nat :=
  match k with
  | 0 => [83, 117, 110]
  | 1 => [77, 111, 110]
  | 2 => [84, 117, 101]
  | 3 => [87, 101, 100]
  | 4 => [84, 104, 117]
  | 5 => [70, 114, 105]
  | _ => [83, 97, 116]

/-- `%b` rendering (months 1–12; the default arm is unreachable for the
well-formed timestamps this program renders). -/
def moNameOf (m : Nat) : List Nat :=
  match m with
  | 1 => [74, 97, 110]
  | 2 => [70, 101, 98]
  | 3 => [77, 97, 114]
  | 4 => [65, 112, 114]
  | 5 => [77, 97, 121]
  | 6 => [74, 117, 110]
  | 7 => [74, 117, 108]
  | 8 => [65, 117, 103]
  | 9 => [83, 101, 112]
  | 10 => [79, 99, 116]
  | 11 => [78, 111, 118]
  | _ => [68, 101, 99]

/-- `%d` / `%H` / `%M` / `%S` zero-padded rendering (exact for the
two-digit field values these directives receive). -/
def pad2 (n : Nat) : List Nat := [48 + n / 10, 48 + n % 10]

/-- `%Y` rendering, zero-padded to four digits.  Exact for
`1000 ≤ year ≤ 9999` on every platform; for smaller years C leaves the
padding of `%Y` unspecified and this model fixes the zero-padded variant. -/
def pad4 (n : Nat) : List Nat :=
  [48 + n / 1000, 48 + n / 100 % 10, 48 + n / 10 % 10, 48 + n % 10]

/-- `dt.strftime('%a %b %d %H:%M:%S %Y')` (converter.py lines 96 and 109). -/
def strftimeLayout (dt : PyDateTime) : List Nat :=
  wdNameOf (weekdaySun0 dt.year dt.month dt.day) ++ [32] ++ moNameOf dt.month ++ [32] ++
    pad2 dt.day ++ [32] ++ pad2 dt.hour ++ [58] ++ pad2 dt.minute ++ [58] ++
    pad2 dt.second ++ [32] ++ pad4 dt.year

/-- The decoded header text of a message (converter.py lines 79–80). -/
def headersOf (email_content : List Nat) : List Nat :=
  decodeUtf8Replace (takeUntilDoubleNl email_content)

/-- The timestamp component of the envelope line (converter.py lines
96–112): the first parseable `Date` field re-rendered in the fixed layout,
or the current wall-clock time `now` rendered in the same layout. -/
def dateFormattedOf (now : PyDateTime) (headers : List Nat) : List Nat :=
  match findHeaderValue dateTag headers with
  | none => strftimeLayout now
  | some cap =>
    match tryFormats ((pyStrip cap).take 31) with
    | some dt => strftimeLayout dt
    | none => strftimeLayout now

/-- `MboxConverter.get_from_line` (converter.py lines 64–117), with the
wall clock `now` passed explicitly; returns the code points of
`f"From {sender} {date_formatted}\n"`. -/
def get_from_line (now : PyDateTime) (email_content : List Nat) : List Nat :=
  [70, 114, 111, 109, 32] ++ extractSender (headersOf email_content) ++ [32] ++
    dateFormattedOf now (headersOf email_content) ++ [10]

/-! ### Folder conversion (converter.py lines 141–189)

A directory is modelled as a list of `(path, file content)` pairs; paths are
strings of code points.  `find_emlx_files` keeps the `.emlx` entries sorted
lexicographically by full path (`sorted(...)` over `os.walk` output). -/

/-- One serialized mbox entry as written by the loop body of
`convert_folder` (converter.py lines 179–186): encoded envelope line,
escaped content, a newline unless the escaped content already ends with
one, and a blank line. -/
def mboxEntry (now : PyDateTime) (content : List Nat) : List Nat :=
  utf8Encode (get_from_line now content) ++ escape_from_lines content ++
    (if (escape_from_lines content).getLast? = some 10 then [] else [10]) ++ [10]

/-- The `if email_content:` truthiness test (converter.py line 178): a
decode failure and an empty decoded byte string are both skipped. -/
def keptContent : Option (List Nat) → Option (List Nat)
  | some c => if c = [] then none else some c
  | none => none

/-- The writing loop of `convert_folder` (converter.py lines 176–187) over
an ordered file list: total bytes written and the count of converted
messages. -/
def processEmlx (now : PyDateTime) : List (List Nat × List Nat) → List Nat × Nat
  | [] => ([], 0)
  | f :: rest =>
    match keptContent (parse_emlx f.2) with
    | some c =>
      (mboxEntry now c ++ (processEmlx now rest).1, (processEmlx now rest).2 + 1)
    | none => processEmlx now rest

/-- Ascending lexicographic comparison of code-point strings (Python
string `<=`). -/
def lexLe : List Nat → List Nat → Bool
  | [], _ => true
  | _ :: _, [] => false
  | a :: as2, b :: bs2 => if a < b then true else if a = b then lexLe as2 bs2 else false

def insertByPath (f : List Nat × List Nat) :
    List (List Nat × List Nat) → List (List Nat × List Nat)
  | [] => [f]
  | g :: rest => if lexLe f.1 g.1 then f :: g :: rest else g :: insertByPath f rest

/-- `sorted(emlx_files)` (converter.py line 156). -/
def sortByPath : List (List Nat × List Nat) → List (List Nat × List Nat)
  | [] => []
  | f :: rest => insertByPath f (sortByPath rest)

/-- `file.endswith('.emlx') or file.endswith('.partial.emlx')`
(converter.py line 154). -/
def endsWithEmlx (p : List Nat) : Bool :=
  [46, 101, 109, 108, 120].isSuffixOf p ||
    [46, 112, 97, 114, 116, 105, 97, 108, 46, 101, 109, 108, 120].isSuffixOf p

/-- `MboxConverter.find_emlx_files` (converter.py lines 141–156). -/
def find_emlx_files (fs : List (List Nat × List Nat)) : List (List Nat × List Nat) :=
  sortByPath (fs.filter (fun f => endsWithEmlx f.1))

/-- `MboxConverter.convert_folder` (converter.py lines 158–189): `none`
models "no output file was ever created" (the early return on an empty
file list happens before `open(mbox_path, 'wb')`); otherwise the file is
created and holds the written bytes. -/
def convert_folder (now : PyDateTime) (fs : List (List Nat × List Nat)) :
    Option (List Nat) × Nat :=
  match find_emlx_files fs with
  | [] => (none, 0)
  | files => (some (processEmlx now files).1, (processEmlx now files).2)

/-! ### Account conversion (converter.py lines 191–245)

The output directory and the count dictionary are modelled as association
lists keyed by the sanitized folder name; `setKey` models assignment
(`open(..., 'wb')` truncation / `email_counts[name] = count`) and
`removeKey` models `mbox_path.unlink()`. -/

def removeKey {α : Type} (m : List (List Nat × α)) (k : List Nat) : List (List Nat × α) :=
  m.filter (fun p => p.1 != k)

def setKey {α : Type} (m : List (List Nat × α)) (k : List Nat) (v : α) :
    List (List Nat × α) :=
  (k, v) :: removeKey m k

/-- One iteration of the folder loop of `convert_account`
(converter.py lines 214–243): `convert_folder` creates/truncates the
output file whenever the folder has emlx files; a zero count then removes
the file (`unlink`), and a positive count records the count. -/
def accountStep (now : PyDateTime)
    (st : List (List Nat × List Nat) × List (List Nat × Nat))
    (folder : List Nat × List (List Nat × List Nat)) :
    List (List Nat × List Nat) × List (List Nat × Nat) :=
  match convert_folder now folder.2 with
  | (some content, cnt) =>
    if 0 < cnt then (setKey st.1 folder.1 content, setKey st.2 folder.1 cnt)
    else (removeKey (setKey st.1 folder.1 content) folder.1, st.2)
  | (none, _) => (removeKey st.1 folder.1, st.2)

/-- `MboxConverter.convert_account` over an ordered list of discovered
folders `(sanitized name, directory contents)`: the final set of output
files on disk and the returned per-folder count mapping. -/
def convert_account (now : PyDateTime)
    (folders : List (List Nat × List (List Nat × List Nat))) :
    List (List Nat × List Nat) × List (List Nat × Nat) :=
  folders.foldl (accountStep now) ([], [])

/-! ### Predicates used to state the claims -/

/-- Concatenation of a list of byte strings. -/
def listJoin : List (List Nat) → List Nat
  | [] => []
  | x :: xs => x ++ listJoin xs

/-- The fixed envelope timestamp layout of the spec:
`<Weekday> <Month> <2-digit day> <HH:MM:SS> <4-digit year>` with 3-letter
weekday and month names. -/
def checkTsLayout (ts : List Nat) : Bool :=
  match ts with
  | [w1, w2, w3, a1, m1, m2, m3, a2, d1, d2, a3, h1, h2, c1, n1, n2, c2, e1, e2,
     a4, y1, y2, y3, y4] =>
    [[83, 117, 110], [77, 111, 110], [84, 117, 101], [87, 101, 100], [84, 104, 117],
      [70, 114, 105], [83, 97, 116]].contains [w1, w2, w3] &&
    [[74, 97, 110], [70, 101, 98], [77, 97, 114], [65, 112, 114], [77, 97, 121],
      [74, 117, 110], [74, 117, 108], [65, 117, 103], [83, 101, 112], [79, 99, 116],
      [78, 111, 118], [68, 101, 99]].contains [m1, m2, m3] &&
    (a1 == 32) && (a2 == 32) && (a3 == 32) && (a4 == 32) && (c1 == 58) && (c2 == 58) &&
    isDigit d1 && isDigit d2 && isDigit h1 && isDigit h2 && isDigit n1 && isDigit n2 &&
    isDigit e1 && isDigit e2 && isDigit y1 && isDigit y2 && isDigit y3 && isDigit y4
  | _ => false

/-- Field bounds of a renderable timestamp (`datetime` invariants). -/
def WFdt (dt : PyDateTime) : Prop :=
  1 ≤ dt.year ∧ dt.year ≤ 9999 ∧ 1 ≤ dt.month ∧ dt.month ≤ 12 ∧ 1 ≤ dt.day ∧
    dt.day ≤ 31 ∧ dt.hour ≤ 23 ∧ dt.minute ≤ 59 ∧ dt.second ≤ 59

instance (dt : PyDateTime) : Decidable (WFdt dt) := by
  unfold WFdt
  infer_instance

/-- A message whose envelope timestamp does not fall back to the wall
clock: its `Date` field is found and parses under an accepted format. -/
def dateDetermined (content : List Nat) : Bool :=
  match findHeaderValue dateTag (headersOf content) with
  | some cap => (tryFormats ((pyStrip cap).take 31)).isSome
  | none => false

/-- Every message a folder actually writes has a clock-independent
envelope timestamp. -/
def allKeptDatesDetermined (fs : List (List Nat × List Nat)) : Bool :=
  (find_emlx_files fs).all fun f =>
    match keptContent (parse_emlx f.2) with
    | some c => dateDetermined c
    | none => true

/-- Modelled from the spec wording of C4 (sender-token derivation), for
comparison against the code: on a `From` value containing `@` but no
angle-bracketed address, the spec prescribes the first whitespace-delimited
token of the value unconditionally. -/
def senderSpecC4 (headers : List Nat) : List Nat :=
  match findHeaderValue fromTag headers with
  | none => mailerDaemon
  | some cap =>
    let raw := pyStrip cap
    match searchAngle raw with
    | some addr => addr
    | none =>
      if raw.contains 64 then headTokenD (pySplitWs raw) raw
      else mailerDaemon

/-- The amended C4 derivation: as `senderSpecC4`, except that the value is
reduced to its first whitespace-delimited token only when it contains a
space character (0x20); otherwise the whole value is the token. -/
def senderSpecC4Amended (headers : List Nat) : List Nat :=
  match findHeaderValue fromTag headers with
  | none => mailerDaemon
  | some cap =>
    let raw := pyStrip cap
    match searchAngle raw with
    | some addr => addr
    | none =>
      if raw.contains 64 then
        (if raw.contains 32 then headTokenD (pySplitWs raw) raw else raw)
      else mailerDaemon

/-! ### Helper lemmas -/

theorem dropWhile_eq_self_of_all {l : List Nat} {p : Nat → Bool}
    (h : ∀ c ∈ l, p c = false) : l.dropWhile p = l := by
  cases l with
  | nil => rfl
  | cons c t => simp [List.dropWhile, h c (by simp)]

theorem pyStrip_eq_self {l : List Nat} (h : ∀ c ∈ l, wsChar c = false) :
    pyStrip l = l := by
  unfold pyStrip
  rw [dropWhile_eq_self_of_all h, dropWhile_eq_self_of_all, List.reverse_reverse]
  intro c hc
  exact h c (by simpa using hc)

theorem natDecDigits_digits (n : Nat) : ∀ c ∈ natDecDigits n, 48 ≤ c ∧ c ≤ 57 := by
  induction n using natDecDigits.induct with
  | case1 n h =>
    intro c hc
    rw [natDecDigits, dif_pos h] at hc
    simp at hc
    omega
  | case2 n h ih =>
    intro c hc
    rw [natDecDigits, dif_neg h] at hc
    rcases List.mem_append.mp hc with h1 | h2
    · exact ih c h1
    · simp at h2
      have : n % 10 < 10 := Nat.mod_lt _ (by omega)
      omega

theorem natDecDigits_ne_nil (n : Nat) : natDecDigits n ≠ [] := by
  rw [natDecDigits]
  split
  · simp
  · simp

theorem digitsOkCore_of_digits {l : List Nat} (h : ∀ c ∈ l, 48 ≤ c ∧ c ≤ 57) :
    digitsOkCore l = true := by
  induction l with
  | nil => rfl
  | cons c t ih =>
    have hc := h c (by simp)
    unfold digitsOkCore
    rw [if_neg (show ¬c = 95 by omega), Bool.and_eq_true]
    refine ⟨by simp only [isDigit, decide_eq_true_eq]; omega,
      ih fun d hd => h d (by simp [hd])⟩

theorem digitsOk_of_digits {l : List Nat} (h : ∀ c ∈ l, 48 ≤ c ∧ c ≤ 57)
    (hne : l ≠ []) : digitsOk l = true := by
  cases l with
  | nil => exact absurd rfl hne
  | cons c t =>
    have hc := h c (by simp)
    simp only [digitsOk, Bool.and_eq_true]
    exact ⟨by simp [isDigit]; omega, digitsOkCore_of_digits fun d hd => h d (by simp [hd])⟩

theorem digitsVal_aux (l : List Nat) (d a : Nat) :
    (l ++ [d]).foldl (fun acc c => acc * 10 + (c - 48)) a
      = (l.foldl (fun acc c => acc * 10 + (c - 48)) a) * 10 + (d - 48) := by
  rw [List.foldl_append]
  rfl

theorem digitsVal_natDec (n : Nat) : digitsVal (natDecDigits n) = n := by
  have hfilter : ∀ m : Nat, (natDecDigits m).filter isDigit = natDecDigits m := by
    intro m
    rw [List.filter_eq_self]
    intro c hc
    have := natDecDigits_digits m c hc
    simp [isDigit]; omega
  suffices h : ∀ m : Nat, (natDecDigits m).foldl (fun acc c => acc * 10 + (c - 48)) 0 = m by
    rw [digitsVal, hfilter, h]
  intro m
  induction m using natDecDigits.induct with
  | case1 m h => rw [natDecDigits, dif_pos h]; simp
  | case2 m h ih =>
    rw [natDecDigits, dif_neg h, digitsVal_aux, ih]
    omega

theorem pyInt_natDec (n : Nat) : pyIntOfBytes (natDecDigits n) = some (n : Int) := by
  have hdig := natDecDigits_digits n
  rw [pyIntOfBytes]
  have hany : (natDecDigits n).any (fun b => decide (128 ≤ b)) = false := by
    rw [List.any_eq_false]
    intro b hb
    have h2 := hdig b hb
    simp only [decide_eq_true_eq]
    omega
  rw [if_neg (by rw [hany]; simp)]
  have hstrip : pyStrip (natDecDigits n) = natDecDigits n :=
    pyStrip_eq_self fun c hc => by
      have := hdig c hc
      simp [wsChar]; omega
  rw [hstrip]
  obtain ⟨c, t, hct⟩ : ∃ c t, natDecDigits n = c :: t := by
    cases h : natDecDigits n with
    | nil => exact absurd h (natDecDigits_ne_nil n)
    | cons c t => exact ⟨c, t, rfl⟩
  have hc := hdig c (by rw [hct]; simp)
  have hok : digitsOk (c :: t) = true := by
    rw [← hct]
    exact digitsOk_of_digits hdig (natDecDigits_ne_nil n)
  rw [hct, pyIntStr, if_neg (by omega), if_neg (by omega), if_pos hok]
  have := digitsVal_natDec n
  rw [hct] at this
  rw [this]

theorem findIdx_no_nl (l1 l2 : List Nat) (h : ∀ c ∈ l1, (c == 10) = false) :
    (l1 ++ 10 :: l2).findIdx (fun b => b == 10) = l1.length := by
  induction l1 with
  | nil => simp [List.findIdx_cons]
  | cons c t ih =>
    rw [List.cons_append, List.findIdx_cons, h c (by simp)]
    simp only [cond_false]
    rw [ih fun d hd => h d (by simp [hd])]
    rfl

/-! ### C1: round-trip decode of a well-formed container -/

theorem parse_emlx_good (d content trailer : List Nat)
    (hno10 : ∀ c ∈ d, (c == 10) = false)
    (hpy : pyIntOfBytes d = some (content.length : Int)) :
    parse_emlx (d ++ 10 :: (content ++ trailer)) = some content := by
  rw [parse_emlx]
  have hfind : (d ++ 10 :: (content ++ trailer)).findIdx (fun b => b == 10) = d.length :=
    findIdx_no_nl _ _ hno10
  rw [hfind]
  have hlen : (d ++ 10 :: (content ++ trailer)).length
      = d.length + 1 + content.length + trailer.length := by
    simp
    omega
  rw [if_neg (by omega)]
  have htake : (d ++ 10 :: (content ++ trailer)).take d.length = d := by
    rw [List.take_append_of_le_length (by simp), List.take_length]
  rw [htake, hpy, Option.getD_some]
  unfold pySlice
  have h1 : pySliceIdx (d ++ 10 :: (content ++ trailer)).length ((d.length : Int) + 1) =
      d.length + 1 := by
    unfold pySliceIdx
    rw [if_neg (by omega), hlen]
    omega
  have h2 : pySliceIdx (d ++ 10 :: (content ++ trailer)).length
      ((d.length : Int) + 1 + (content.length : Int)) = d.length + 1 + content.length := by
    unfold pySliceIdx
    rw [if_neg (by omega), hlen]
    omega
  simp only [h1, h2]
  congr 1
  have hsplit : d ++ 10 :: (content ++ trailer) = (d ++ 10 :: content) ++ trailer := by
    simp
  rw [hsplit]
  have htk : ((d ++ 10 :: content) ++ trailer).take (d.length + 1 + content.length)
      = d ++ 10 :: content := by
    rw [List.take_append_of_le_length (by simp; omega),
      List.take_of_length_le (by simp; omega)]
  rw [htk]
  have hsplit2 : d ++ 10 :: content = (d ++ [10]) ++ content := by simp
  rw [hsplit2, List.drop_append_of_le_length (by simp)]
  simp

/-- **C1.** For every byte string `content` and trailer, decoding the
container `"<n>\n" + content + trailer` with `n = len(content)` rendered in
ASCII decimal returns exactly `content`, regardless of the trailer. -/
theorem claim_C1 (content trailer : List Nat) :
    parse_emlx (natDecDigits content.length ++ [10] ++ content ++ trailer)
      = some content := by
  have harr : natDecDigits content.length ++ [10] ++ content ++ trailer
      = natDecDigits content.length ++ 10 :: (content ++ trailer) := by
    simp
  rw [harr]
  refine parse_emlx_good _ _ _ ?_ (pyInt_natDec content.length)
  intro c hc
  have := natDecDigits_digits content.length c hc
  simp only [beq_eq_false_iff_ne, ne_eq]
  omega

/-! ### C2: From-line escaping -/

theorem bytesSplitNl_ne_nil (l : List Nat) : bytesSplitNl l ≠ [] := by
  cases l with
  | nil => simp [bytesSplitNl]
  | cons b t =>
    rw [bytesSplitNl]
    split
    · simp
    · rcases h : bytesSplitNl t with _ | ⟨s, ss⟩ <;> simp [consFirst]

theorem bytesSplitNl_no_nl (l : List Nat) : ∀ p ∈ bytesSplitNl l, 10 ∉ p := by
  induction l with
  | nil => simp [bytesSplitNl]
  | cons b t ih =>
    intro p hp
    rw [bytesSplitNl] at hp
    by_cases hb : b = 10
    · rw [if_pos hb] at hp
      rcases List.mem_cons.mp hp with hp | hp
      · simp [hp]
      · exact ih p hp
    · rw [if_neg hb] at hp
      rcases h : bytesSplitNl t with _ | ⟨s, ss⟩
      · exact absurd h (bytesSplitNl_ne_nil t)
      · rw [h, consFirst] at hp
        rcases List.mem_cons.mp hp with hp | hp
        · subst hp
          intro hmem
          rcases List.mem_cons.mp hmem with hmem | hmem
          · exact hb hmem.symm
          · exact ih s (by rw [h]; simp) hmem
        · exact ih p (by rw [h]; simp [hp])

theorem bytesSplitNl_append_nl {p : List Nat} (t : List Nat) (h : 10 ∉ p) :
    bytesSplitNl (p ++ 10 :: t) = p :: bytesSplitNl t := by
  induction p with
  | nil => simp [bytesSplitNl]
  | cons b p2 ih =>
    have hb : b ≠ 10 := fun hb => h (by simp [hb])
    rw [List.cons_append, bytesSplitNl, if_neg hb, ih (fun hm => h (by simp [hm]))]
    rfl

theorem bytesSplitNl_of_no_nl {p : List Nat} (h : 10 ∉ p) : bytesSplitNl p = [p] := by
  induction p with
  | nil => rfl
  | cons b p2 ih =>
    have hb : b ≠ 10 := fun hb => h (by simp [hb])
    rw [bytesSplitNl, if_neg hb, ih (fun hm => h (by simp [hm]))]
    rfl

theorem bytesSplitNl_joinNl (ps : List (List Nat)) (hne : ps ≠ [])
    (h : ∀ p ∈ ps, 10 ∉ p) : bytesSplitNl (joinNl ps) = ps := by
  induction ps with
  | nil => exact absurd rfl hne
  | cons p ps2 ih =>
    cases ps2 with
    | nil => exact bytesSplitNl_of_no_nl (h p (by simp))
    | cons q qs =>
      rw [joinNl, bytesSplitNl_append_nl _ (h p (by simp))]
      rw [ih (by simp) fun r hr => h r (by simp [hr])]

theorem escLine_no_nl {l : List Nat} (h : 10 ∉ l) : 10 ∉ escLine l := by
  rw [escLine]
  split
  · intro hmem
    rcases List.mem_append.mp hmem with h1 | h1
    · simp at h1
    · exact h (List.mem_of_mem_drop h1)
  · exact h

theorem escLine_not_from (l : List Nat) :
    [70, 114, 111, 109, 32].isPrefixOf (escLine l) = false := by
  rw [escLine]
  split
  · rfl
  · next hcond =>
    simp only [Bool.not_eq_true] at hcond
    exact hcond

/-- **C2.** Escaping rewrites exactly the lines that begin with the five
bytes `From ` to begin with `>From ` (remainder unchanged), passes all other
lines through byte-for-byte, and rejoins on the same terminator — stated as:
the line decomposition of the output is the described per-line transform of
the line decomposition of the input.  Moreover no line of the escaped output
(and hence of a doubly-escaped output) begins with `From `. -/
theorem claim_C2 (content : List Nat) :
    bytesSplitNl (escape_from_lines content)
        = (bytesSplitNl content).map (fun line =>
            if [70, 114, 111, 109, 32].isPrefixOf line then
              [62, 70, 114, 111, 109, 32] ++ line.drop 5
            else line)
      ∧ (bytesSplitNl (escape_from_lines content)).all
          (fun line => !([70, 114, 111, 109, 32].isPrefixOf line)) = true
      ∧ (bytesSplitNl (escape_from_lines (escape_from_lines content))).all
          (fun line => !([70, 114, 111, 109, 32].isPrefixOf line)) = true := by
  have hsplit : ∀ c : List Nat, bytesSplitNl (escape_from_lines c)
      = (bytesSplitNl c).map escLine := by
    intro c
    rw [escape_from_lines]
    refine bytesSplitNl_joinNl _ (by simp [bytesSplitNl_ne_nil]) ?_
    intro p hp
    rcases List.mem_map.mp hp with ⟨q, hq, rfl⟩
    exact escLine_no_nl (bytesSplitNl_no_nl c q hq)
  refine ⟨hsplit content, ?_, ?_⟩
  · rw [hsplit content, List.all_eq_true]
    intro p hp
    rcases List.mem_map.mp hp with ⟨q, hq, rfl⟩
    simp [escLine_not_from]
  · rw [hsplit (escape_from_lines content), List.all_eq_true]
    intro p hp
    rcases List.mem_map.mp hp with ⟨q, hq, rfl⟩
    simp [escLine_not_from]

/-! ### C7: fallback on unparseable length field -/

/-- **C7.** If the container holds a line terminator but its first line does
not parse as an integer, decoding does not fail and returns every byte after
the first line terminator. -/
theorem claim_C7 (content : List Nat) (h10 : 10 ∈ content)
    (hbad : pyIntOfBytes (content.take (content.findIdx (fun b => b == 10))) = none) :
    parse_emlx content = some (content.drop (content.findIdx (fun b => b == 10) + 1)) := by
  rw [parse_emlx]
  have hlt : content.findIdx (fun b => b == 10) < content.length :=
    List.findIdx_lt_length_of_exists ⟨10, h10, by simp⟩
  rw [if_neg (by omega), hbad, Option.getD_none]
  unfold pySlice
  set i := content.findIdx (fun b => b == 10) with hi
  have h1 : pySliceIdx content.length ((i : Int) + 1) = i + 1 := by
    unfold pySliceIdx
    rw [if_neg (by omega)]
    omega
  have h2 : pySliceIdx content.length
      ((i : Int) + 1 + ((content.length : Int) - i - 1)) = content.length := by
    unfold pySliceIdx
    rw [if_neg (by omega)]
    omega
  simp only [h1, h2, List.take_length]

/-- Witness for C7 at the concrete container `b"abc\ndef"`. -/
theorem claim_C7_witness :
    parse_emlx [97, 98, 99, 10, 100, 101, 102] = some [100, 101, 102] := by
  have h := claim_C7 [97, 98, 99, 10, 100, 101, 102] (by decide) (by decide)
  simpa using h

/-! ### C10: zero declared length -/

/-- **C10.** A container `b"0\n" + trailer` decodes successfully to the
empty byte string, yet the folder conversion loop treats it like a failure:
it writes no entry and adds nothing to the count. -/
theorem claim_C10 (trailer : List Nat) (now : PyDateTime) (p : List Nat) :
    parse_emlx (48 :: 10 :: trailer) = some []
      ∧ processEmlx now [(p, 48 :: 10 :: trailer)] = ([], 0) := by
  have hparse : parse_emlx (48 :: 10 :: trailer) = some [] := by
    have h := parse_emlx_good [48] [] trailer (by decide) (by rfl)
    simpa using h
  refine ⟨hparse, ?_⟩
  have hk : keptContent (parse_emlx (48 :: 10 :: trailer)) = none := by
    rw [hparse]
    rfl
  unfold processEmlx
  simp only [hk]
  rfl

/-! ### C8: container with no line terminator -/

/-- **C8.** A container holding no line terminator anywhere decodes to the
failure value `none`, and the folder conversion loop skips it: removing it
from the processed file list changes neither the written bytes nor the
count. -/
theorem claim_C8 (content : List Nat) (h : 10 ∉ content) :
    parse_emlx content = none
      ∧ ∀ (now : PyDateTime) (pre post : List (List Nat × List Nat)) (p : List Nat),
          processEmlx now (pre ++ (p, content) :: post) = processEmlx now (pre ++ post) := by
  have hfind : content.findIdx (fun b => b == 10) = content.length := by
    induction content with
    | nil => rfl
    | cons c rest ih =>
      rw [List.findIdx_cons]
      have hc : (c == 10) = false := by
        simp only [beq_eq_false_iff_ne, ne_eq]
        intro hcc
        exact h (by simp [hcc])
      rw [hc]
      simp only [cond_false]
      rw [ih fun hm => h (by simp [hm])]
      rfl
  have hparse : parse_emlx content = none := by
    rw [parse_emlx]
    rw [if_pos hfind]
  refine ⟨hparse, ?_⟩
  intro now pre post p
  have hk : keptContent (parse_emlx content) = none := by
    rw [hparse]
    rfl
  induction pre with
  | nil =>
    simp only [List.nil_append]
    conv_lhs => rw [processEmlx]
    simp only [hk]
  | cons f rest ih =>
    simp only [List.cons_append]
    rw [processEmlx, processEmlx]
    cases hkf : keptContent (parse_emlx f.2) with
    | none =>
      simpa only [hkf] using ih
    | some c =>
      simp only [hkf, ih]

/-- Witness for C8 at the concrete container `b"abc"`. -/
theorem claim_C8_witness :
    parse_emlx [97, 98, 99] = none
      ∧ processEmlx ⟨2024, 1, 1, 0, 0, 0⟩ [([120], [97, 98, 99])]
          = processEmlx ⟨2024, 1, 1, 0, 0, 0⟩ [] := by
  have h := claim_C8 [97, 98, 99] (by decide)
  exact ⟨h.1, by simpa using h.2 ⟨2024, 1, 1, 0, 0, 0⟩ [] [] [120]⟩

/-! ### C4: sender-token derivation -/

theorem pySplitWsAux_ne_nil :
    ∀ (l acc : List Nat), ((∃ c ∈ l, wsChar c = false) ∨ acc ≠ []) →
      pySplitWsAux l acc ≠ [] := by
  intro l
  induction l with
  | nil =>
    intro acc h
    rcases h with ⟨c, hc, _⟩ | h
    · cases hc
    · rw [pySplitWsAux, if_neg (by simpa using h)]
      simp
  | cons c rest ih =>
    intro acc h
    rw [pySplitWsAux]
    by_cases hc : wsChar c
    · rw [if_pos hc]
      split
    
      · next hacc =>
        apply ih
        left
        rcases h with ⟨c0, hc0, hnw⟩ | h
        · rcases List.mem_cons.mp hc0 with h1 | h1
          · subst h1
            rw [hnw] at hc
            cases hc
          · exact ⟨c0, h1, hnw⟩
        · exact absurd (List.isEmpty_iff.mp hacc) h
      · simp
    · rw [if_neg hc]
      apply ih
      right
      simp

theorem pySplitWs_ne_nil {l : List Nat} (c0 : Nat) (hc0 : c0 ∈ l)
    (hnw : wsChar c0 = false) : pySplitWs l ≠ [] :=
  pySplitWsAux_ne_nil l [] (Or.inl ⟨c0, hc0, hnw⟩)

/-- **C4 counterexample.** For the message whose header block is
`From: a@b<TAB>c`, the code keeps the whole value `a@b<TAB>c` as the sender
token (the value contains no space character), while the claim prescribes
the first whitespace-delimited token `a@b`. -/
theorem claim_C4_counterexample :
    extractSender (headersOf [70, 114, 111, 109, 58, 32, 97, 64, 98, 9, 99])
      ≠ senderSpecC4 (headersOf [70, 114, 111, 109, 58, 32, 97, 64, 98, 9, 99]) := by
  decide

/-- **C4 (amended).** The sender token is derived from a case-insensitive
scan of the header block for a `From` field: an angle-bracket-delimited
address wins; otherwise a raw value containing `@` is used — reduced to its
first whitespace-delimited token only when it contains a space character
(0x20), and kept whole otherwise; in every remaining case the token is the
literal `MAILER-DAEMON`. -/
theorem claim_C4 (headers : List Nat) :
    extractSender headers = senderSpecC4Amended headers := by
  unfold extractSender senderSpecC4Amended
  split
  · rfl
  · next cap heq =>
    dsimp only
    split
    · rfl
    · next hangle =>
      by_cases h64 : (pyStrip cap).contains 64
      · rw [if_pos h64, if_pos h64]
        by_cases h32 : (pyStrip cap).contains 32
        · rw [if_pos h32, if_pos h32]
          have h64m : 64 ∈ pyStrip cap := by
            simpa using h64
          have hne : pySplitWs (pyStrip cap) ≠ [] :=
            pySplitWs_ne_nil 64 h64m (by decide)
          cases hsp : pySplitWs (pyStrip cap) with
          | nil => exact absurd hsp hne
          | cons t ts => rfl
        · rw [if_neg h32, if_neg h32]
      · rw [if_neg h64, if_neg h64]

/-! ### C6: determinism across runs -/

/-- **C6 counterexample.** A folder whose single message carries no `Date`
header embeds the wall-clock time in the envelope line, so two runs of
`convert_folder` over an unchanged directory at different clock readings
produce different output bytes. -/
theorem claim_C6_counterexample :
    convert_folder ⟨2024, 1, 1, 0, 0, 0⟩ [([97, 46, 101, 109, 108, 120], [51, 10, 97, 98, 99])]
      ≠ convert_folder ⟨2024, 1, 1, 0, 0, 1⟩
          [([97, 46, 101, 109, 108, 120], [51, 10, 97, 98, 99])] := by
  decide

theorem get_from_line_clock_indep (now1 now2 : PyDateTime) (c : List Nat)
    (h : dateDetermined c = true) : get_from_line now1 c = get_from_line now2 c := by
  unfold get_from_line
  unfold dateDetermined at h
  congr 2
  unfold dateFormattedOf
  cases hf : findHeaderValue dateTag (headersOf c) with
  | none =>
    rw [hf] at h
    cases h
  | some cap =>
    rw [hf] at h
    simp only at h
    obtain ⟨dt, hdt⟩ := Option.isSome_iff_exists.mp h
    dsimp only
    rw [hdt]

theorem mboxEntry_clock_indep (now1 now2 : PyDateTime) (c : List Nat)
    (h : dateDetermined c = true) : mboxEntry now1 c = mboxEntry now2 c := by
  unfold mboxEntry
  rw [get_from_line_clock_indep now1 now2 c h]

theorem processEmlx_clock_indep (now1 now2 : PyDateTime)
    (files : List (List Nat × List Nat))
    (h : ∀ f ∈ files, (match keptContent (parse_emlx f.2) with
      | some c => dateDetermined c
      | none => true) = true) :
    processEmlx now1 files = processEmlx now2 files := by
  induction files with
  | nil => rfl
  | cons f rest ih =>
    have hf := h f (by simp)
    have hrest := ih fun g hg => h g (by simp [hg])
    rw [processEmlx, processEmlx]
    cases hk : keptContent (parse_emlx f.2) with
    | none => simpa only [hk] using hrest
    | some c =>
      rw [hk] at hf
      simp only [hk, hrest, mboxEntry_clock_indep now1 now2 c hf]

/-- **C6 (amended).** Converting the same FolderUnit twice with no
filesystem changes produces byte-identical output provided every message
that is actually written carries a `Date` header that parses under an
accepted format; otherwise the envelope line embeds the wall-clock reading
of the run (`datetime.now()`), and runs at different instants differ. -/
theorem claim_C6 (now1 now2 : PyDateTime) (fs : List (List Nat × List Nat))
    (h : allKeptDatesDetermined fs = true) :
    convert_folder now1 fs = convert_folder now2 fs := by
  unfold convert_folder
  unfold allKeptDatesDetermined at h
  rw [List.all_eq_true] at h
  cases hfe : find_emlx_files fs with
  | nil => rfl
  | cons f rest =>
    rw [hfe] at h
    have hp := processEmlx_clock_indep now1 now2 (f :: rest) h
    simp only [hp]

/-- Witness for C6 at a one-message folder whose message has a parseable
`Date` header (the message is delivered through the bad-length fallback,
whose content is the `Date` line itself). -/
theorem claim_C6_witness :
    allKeptDatesDetermined [([97, 46, 101, 109, 108, 120],
        [120, 10, 68, 97, 116, 101, 58, 32, 77, 111, 110, 44, 32, 48, 49, 32, 74, 97,
         110, 32, 50, 48, 50, 52, 32, 49, 50, 58, 48, 48, 58, 48, 48, 32, 43, 48, 48,
         48, 48])] = true
      ∧ convert_folder ⟨2024, 1, 1, 0, 0, 0⟩ [([97, 46, 101, 109, 108, 120],
          [120, 10, 68, 97, 116, 101, 58, 32, 77, 111, 110, 44, 32, 48, 49, 32, 74, 97,
           110, 32, 50, 48, 50, 52, 32, 49, 50, 58, 48, 48, 58, 48, 48, 32, 43, 48, 48,
           48, 48])]
        = convert_folder ⟨2025, 6, 7, 8, 9, 10⟩ [([97, 46, 101, 109, 108, 120],
          [120, 10, 68, 97, 116, 101, 58, 32, 77, 111, 110, 44, 32, 48, 49, 32, 74, 97,
           110, 32, 50, 48, 50, 52, 32, 49, 50, 58, 48, 48, 58, 48, 48, 32, 43, 48, 48,
           48, 48])] :=
  ⟨by decide, claim_C6 ⟨2024, 1, 1, 0, 0, 0⟩ ⟨2025, 6, 7, 8, 9, 10⟩ _ (by decide)⟩

/-! ### C9: empty-folder elision -/

theorem lookup_removeKey_self {α : Type} (m : List (List Nat × α)) (k : List Nat) :
    (removeKey m k).lookup k = none := by
  induction m with
  | nil => rfl
  | cons p rest ih =>
    rw [removeKey, List.filter]
    cases hp : (p.1 != k) with
    | false => exact ih
    | true =>
      rw [List.lookup]
      have : (k == p.1) = false := by
        simp only [bne_iff_ne, ne_eq] at hp
        simp only [beq_eq_false_iff_ne, ne_eq]
        exact fun he => hp he.symm
      rw [this]
      exact ih

theorem lookup_removeKey_ne {α : Type} (m : List (List Nat × α)) (k k2 : List Nat)
    (h : k2 ≠ k) : (removeKey m k).lookup k2 = m.lookup k2 := by
  induction m with
  | nil => rfl
  | cons p rest ih =>
    rw [removeKey, List.filter]
    cases hp : (p.1 != k) with
    | false =>
      have hpk : p.1 = k := by simpa using hp
      rw [List.lookup]
      have : (k2 == p.1) = false := by
        simp only [beq_eq_false_iff_ne, ne_eq]
        rw [hpk]
        exact h
      rw [this]
      exact ih
    | true =>
      rw [List.lookup, List.lookup]
      cases hk2 : (k2 == p.1) with
      | false => exact ih
      | true => rfl

theorem lookup_setKey_ne {α : Type} (m : List (List Nat × α)) (k k2 : List Nat) (v : α)
    (h : k2 ≠ k) : (setKey m k v).lookup k2 = m.lookup k2 := by
  rw [setKey, List.lookup]
  have : (k2 == k) = false := by simpa using h
  rw [this]
  exact lookup_removeKey_ne m k k2 h

theorem accountStep_lookup_ne (now : PyDateTime)
    (st : List (List Nat × List Nat) × List (List Nat × Nat))
    (folder : List Nat × List (List Nat × List Nat)) (name : List Nat)
    (h : name ≠ folder.1) :
    (accountStep now st folder).1.lookup name = st.1.lookup name
      ∧ (accountStep now st folder).2.lookup name = st.2.lookup name := by
  rw [accountStep]
  cases hc : convert_folder now folder.2 with
  | mk o cnt =>
    cases o with
    | some content =>
      dsimp only
      by_cases hcnt : 0 < cnt
      · rw [if_pos hcnt]
        exact ⟨lookup_setKey_ne _ _ _ _ h, lookup_setKey_ne _ _ _ _ h⟩
      · rw [if_neg hcnt]
        constructor
        · rw [lookup_removeKey_ne _ _ _ h, lookup_setKey_ne _ _ _ _ h]
        · rfl
    | none => exact ⟨lookup_removeKey_ne _ _ _ h, rfl⟩

theorem accountFold_lookup_ne (now : PyDateTime)
    (folders : List (List Nat × List (List Nat × List Nat))) (name : List Nat)
    (h : name ∉ folders.map Prod.fst) :
    ∀ st, (folders.foldl (accountStep now) st).1.lookup name = st.1.lookup name
      ∧ (folders.foldl (accountStep now) st).2.lookup name = st.2.lookup name := by
  induction folders with
  | nil => intro st; exact ⟨rfl, rfl⟩
  | cons f rest ih =>
    intro st
    have hne : name ≠ f.1 := fun he => h (by simp [he])
    have hrest : name ∉ rest.map Prod.fst := fun hm => h (by simp [hm])
    rw [List.foldl_cons]
    have hstep := accountStep_lookup_ne now st f name hne
    have hfold := ih hrest (accountStep now st f)
    exact ⟨hfold.1.trans hstep.1, hfold.2.trans hstep.2⟩

/-- **C9.** A FolderUnit that yields zero successfully-converted containers
leaves no output file in the final result of the account conversion (the
file is never created, or is created and then unlinked), and contributes no
entry to the returned count mapping.  (Folder names are assumed distinct;
the sanitizer can merge distinct source folders onto one name, in which
case a later conversion legitimately rewrites the shared output file.) -/
theorem claim_C9 (now : PyDateTime)
    (folders : List (List Nat × List (List Nat × List Nat)))
    (hnd : (folders.map Prod.fst).Nodup) (name : List Nat)
    (files : List (List Nat × List Nat)) (hmem : (name, files) ∈ folders)
    (hzero : (convert_folder now files).2 = 0) :
    (convert_account now folders).1.lookup name = none
      ∧ (convert_account now folders).2.lookup name = none := by
  rw [convert_account]
  suffices h : ∀ st : List (List Nat × List Nat) × List (List Nat × Nat),
      st.2.lookup name = none →
      (folders.foldl (accountStep now) st).1.lookup name = none
        ∧ (folders.foldl (accountStep now) st).2.lookup name = none from
    h ([], []) rfl
  induction folders with
  | nil => cases hmem
  | cons f rest ih =>
    intro st hst2
    rw [List.foldl_cons]
    rcases List.mem_cons.mp hmem with hf | hf
    · have hrest : name ∉ rest.map Prod.fst := by
        rw [← hf] at hnd
        exact (List.nodup_cons.mp hnd).1
      have hstep : (accountStep now st f).1.lookup name = none
          ∧ (accountStep now st f).2.lookup name = none := by
        rw [← hf, accountStep]
        cases ho : convert_folder now files with
        | mk o cnt =>
          have hcnt : cnt = 0 := by rw [ho] at hzero; exact hzero
          subst hcnt
          cases o with
          | some content =>
            dsimp only
            rw [if_neg (by omega)]
            exact ⟨lookup_removeKey_self _ _, hst2⟩
          | none => exact ⟨lookup_removeKey_self _ _, hst2⟩
      have hfold := accountFold_lookup_ne now rest name hrest (accountStep now st f)
      exact ⟨hfold.1.trans hstep.1, hfold.2.trans hstep.2⟩
    · have hne : name ≠ f.1 := by
        intro he
        have h1 : name ∈ rest.map Prod.fst := List.mem_map.mpr ⟨(name, files), hf, rfl⟩
        rw [he] at h1
        exact (List.nodup_cons.mp hnd).1 h1
      have hstep := accountStep_lookup_ne now st f name hne
      exact ih (List.nodup_cons.mp hnd).2 hf (accountStep now st f)
        (hstep.2.trans hst2)

/-- Witness for C9: an account with one folder whose only emlx file has no
line terminator (zero messages convert); the final result holds neither an
output file nor a count entry for it. -/
theorem claim_C9_witness :
    (convert_account ⟨2024, 1, 1, 0, 0, 0⟩
        [([110, 109], [([102, 46, 101, 109, 108, 120], [97, 98, 99])])]).1.lookup [110, 109]
        = none
      ∧ (convert_account ⟨2024, 1, 1, 0, 0, 0⟩
        [([110, 109], [([102, 46, 101, 109, 108, 120], [97, 98, 99])])]).2.lookup [110, 109]
        = none :=
  claim_C9 ⟨2024, 1, 1, 0, 0, 0⟩ _ (by decide) [110, 109]
    [([102, 46, 101, 109, 108, 120], [97, 98, 99])] (by decide) (by decide)

/-! ### Timestamp shape lemmas -/

theorem wdNameOf_cases (k : Nat) :
    wdNameOf k = [83, 117, 110] ∨ wdNameOf k = [77, 111, 110] ∨
    wdNameOf k = [84, 117, 101] ∨ wdNameOf k = [87, 101, 100] ∨
    wdNameOf k = [84, 104, 117] ∨ wdNameOf k = [70, 114, 105] ∨
    wdNameOf k = [83, 97, 116] := by
  unfold wdNameOf
  split <;> simp

theorem moNameOf_cases (m : Nat) :
    moNameOf m = [74, 97, 110] ∨ moNameOf m = [70, 101, 98] ∨
    moNameOf m = [77, 97, 114] ∨ moNameOf m = [65, 112, 114] ∨
    moNameOf m = [77, 97, 121] ∨ moNameOf m = [74, 117, 110] ∨
    moNameOf m = [74, 117, 108] ∨ moNameOf m = [65, 117, 103] ∨
    moNameOf m = [83, 101, 112] ∨ moNameOf m = [79, 99, 116] ∨
    moNameOf m = [78, 111, 118] ∨ moNameOf m = [68, 101, 99] := by
  unfold moNameOf
  split <;> simp

theorem strftime_props (dt : PyDateTime) (h : WFdt dt) :
    checkTsLayout (strftimeLayout dt) = true
      ∧ ∀ c ∈ strftimeLayout dt, 32 ≤ c ∧ c < 128 := by
  obtain ⟨h1, h2, h3, h4, h5, h6, h7, h8, h9⟩ := h
  obtain ⟨w1, w2, w3, hw, hwc, hwr⟩ : ∃ w1 w2 w3,
      wdNameOf (weekdaySun0 dt.year dt.month dt.day) = [w1, w2, w3] ∧
      ([[83, 117, 110], [77, 111, 110], [84, 117, 101], [87, 101, 100], [84, 104, 117],
        [70, 114, 105], [83, 97, 116]].contains [w1, w2, w3]) = true ∧
      (32 ≤ w1 ∧ w1 < 128 ∧ 32 ≤ w2 ∧ w2 < 128 ∧ 32 ≤ w3 ∧ w3 < 128) := by
    rcases wdNameOf_cases (weekdaySun0 dt.year dt.month dt.day) with h | h | h | h | h | h | h <;>
      exact ⟨_, _, _, h, by decide, by decide⟩
  obtain ⟨m1, m2, m3, hm, hmc, hmr⟩ : ∃ m1 m2 m3,
      moNameOf dt.month = [m1, m2, m3] ∧
      ([[74, 97, 110], [70, 101, 98], [77, 97, 114], [65, 112, 114], [77, 97, 121],
        [74, 117, 110], [74, 117, 108], [65, 117, 103], [83, 101, 112], [79, 99, 116],
        [78, 111, 118], [68, 101, 99]].contains [m1, m2, m3]) = true ∧
      (32 ≤ m1 ∧ m1 < 128 ∧ 32 ≤ m2 ∧ m2 < 128 ∧ 32 ≤ m3 ∧ m3 < 128) := by
    rcases moNameOf_cases dt.month with h | h | h | h | h | h | h | h | h | h | h | h <;>
      exact ⟨_, _, _, h, by decide, by decide⟩
  have hl : strftimeLayout dt
      = [w1, w2, w3, 32, m1, m2, m3, 32, 48 + dt.day / 10, 48 + dt.day % 10, 32,
         48 + dt.hour / 10, 48 + dt.hour % 10, 58, 48 + dt.minute / 10, 48 + dt.minute % 10,
         58, 48 + dt.second / 10, 48 + dt.second % 10, 32, 48 + dt.year / 1000,
         48 + dt.year / 100 % 10, 48 + dt.year / 10 % 10, 48 + dt.year % 10] := by
    rw [strftimeLayout, hw, hm]
    unfold pad2 pad4
    simp
  rw [hl]
  constructor
  · rw [checkTsLayout]
    simp only [Bool.and_eq_true, beq_iff_eq, isDigit, decide_eq_true_eq, hwc, hmc,
      and_true, true_and]
    omega
  · intro c hc
    obtain ⟨hwr1, hwr2, hwr3, hwr4, hwr5, hwr6⟩ := hwr
    obtain ⟨hmr1, hmr2, hmr3, hmr4, hmr5, hmr6⟩ := hmr
    simp only [List.mem_cons, List.not_mem_nil, or_false] at hc
    rcases hc with rfl | rfl | rfl | rfl | rfl | rfl | rfl | rfl | rfl | rfl | rfl | rfl |
      rfl | rfl | rfl | rfl | rfl | rfl | rfl | rfl | rfl | rfl | rfl | rfl <;> omega

theorem daysInMonth_le (y m : Nat) : daysInMonth y m ≤ 31 := by
  unfold daysInMonth
  split
  · split <;> omega
  · split <;> omega

theorem mkDatetime_WF {y mo d h mi s : Nat} {dt : PyDateTime}
    (hmk : mkDatetime y mo d h mi s = some dt) : WFdt dt := by
  rw [mkDatetime] at hmk
  split at hmk
  · next hcond =>
    cases hmk
    obtain ⟨c1, c2, c3, c4, c5, c6, c7, c8, c9⟩ := hcond
    exact ⟨c1, c2, c3, c4, c5, le_trans c6 (daysInMonth_le y mo), c7, c8, c9⟩
  · cases hmk

theorem parseFmt1_WF {s : List Nat} {dt : PyDateTime} (h : parseFmt1 s = some dt) :
    WFdt dt := by
  rw [parseFmt1] at h
  simp only [bind, Option.bind_eq_some] at h
  obtain ⟨s1, -, s2, -, s3, -, vs, -, s4, -, s5, -, hfin⟩ := h
  split at hfin
  · exact mkDatetime_WF hfin
  · cases hfin

theorem parseFmt2_WF {s : List Nat} {dt : PyDateTime} (h : parseFmt2 s = some dt) :
    WFdt dt := by
  rw [parseFmt2] at h
  simp only [bind, Option.bind_eq_some] at h
  obtain ⟨vs, -, s4, -, s5, -, hfin⟩ := h
  split at hfin
  · exact mkDatetime_WF hfin
  · cases hfin

theorem parseFmt3_WF {s : List Nat} {dt : PyDateTime} (h : parseFmt3 s = some dt) :
    WFdt dt := by
  rw [parseFmt3] at h
  simp only [bind, Option.bind_eq_some] at h
  obtain ⟨s1, -, s2, -, s3, -, vs, -, hfin⟩ := h
  split at hfin
  · exact mkDatetime_WF hfin
  · cases hfin

theorem parseFmt4_WF {s : List Nat} {dt : PyDateTime} (h : parseFmt4 s = some dt) :
    WFdt dt := by
  rw [parseFmt4] at h
  simp only [bind, Option.bind_eq_some] at h
  obtain ⟨vs, -, hfin⟩ := h
  split at hfin
  · exact mkDatetime_WF hfin
  · cases hfin

theorem tryFormats_WF {s : List Nat} {dt : PyDateTime} (h : tryFormats s = some dt) :
    WFdt dt := by
  rw [tryFormats] at h
  cases h1 : parseFmt1 s with
  | some d1 =>
    rw [h1] at h
    simp only [Option.orElse] at h
    cases h
    exact parseFmt1_WF h1
  | none =>
    rw [h1] at h
    simp only [Option.orElse] at h
    cases h2 : parseFmt2 s with
    | some d2 =>
      rw [h2] at h
      simp only [Option.orElse] at h
      cases h
      exact parseFmt2_WF h2
    | none =>
      rw [h2] at h
      simp only [Option.orElse] at h
      cases h3 : parseFmt3 s with
      | some d3 =>
        rw [h3] at h
        simp only [Option.orElse] at h
        cases h
        exact parseFmt3_WF h3
      | none =>
        rw [h3] at h
        simp only [Option.orElse] at h
        exact parseFmt4_WF h

theorem dateFormatted_shape (now : PyDateTime) (hdrs : List Nat) (hWF : WFdt now) :
    ∃ dt0, WFdt dt0 ∧ dateFormattedOf now hdrs = strftimeLayout dt0 := by
  rw [dateFormattedOf]
  cases hf : findHeaderValue dateTag hdrs with
  | none => exact ⟨now, hWF, rfl⟩
  | some cap =>
    dsimp only
    cases ht : tryFormats ((pyStrip cap).take 31) with
    | some dt => exact ⟨dt, tryFormats_WF ht, rfl⟩
    | none => exact ⟨now, hWF, rfl⟩

/-! ### C5: envelope timestamp derivation -/

/-- **C5.** The envelope timestamp: a message whose `Date` field is
`Mon, 01 Jan 2024 12:00:00 +0000` yields the literal
`Mon Jan 01 12:00:00 2024`; a message with no `Date` field, or whose date
value parses under none of the accepted formats, yields the wall-clock
reading `now` rendered in the same fixed layout (3-letter weekday, 3-letter
month, 2-digit day, HH:MM:SS, 4-digit year). -/
theorem claim_C5 (now : PyDateTime) (hWF : WFdt now) (content : List Nat) :
    (findHeaderValue dateTag (headersOf content)
        = some [77, 111, 110, 44, 32, 48, 49, 32, 74, 97, 110, 32, 50, 48, 50, 52, 32,
            49, 50, 58, 48, 48, 58, 48, 48, 32, 43, 48, 48, 48, 48] →
      dateFormattedOf now (headersOf content)
        = [77, 111, 110, 32, 74, 97, 110, 32, 48, 49, 32, 49, 50, 58, 48, 48, 58, 48,
            48, 32, 50, 48, 50, 52])
    ∧ (findHeaderValue dateTag (headersOf content) = none →
        dateFormattedOf now (headersOf content) = strftimeLayout now)
    ∧ (∀ v, findHeaderValue dateTag (headersOf content) = some v →
        tryFormats ((pyStrip v).take 31) = none →
        dateFormattedOf now (headersOf content) = strftimeLayout now)
    ∧ checkTsLayout (strftimeLayout now) = true := by
  refine ⟨?_, ?_, ?_, (strftime_props now hWF).1⟩
  · intro h
    rw [dateFormattedOf, h]
    rfl
  · intro h
    rw [dateFormattedOf, h]
  · intro v h hN
    rw [dateFormattedOf, h]
    dsimp only
    rw [hN]

/-- Witness for C5 at `now = 2024-05-17 01:02:03` and three concrete
messages: one with the example `Date` header, one with no header at all,
and one with an unparseable date value. -/
theorem claim_C5_witness :
    dateFormattedOf ⟨2024, 5, 17, 1, 2, 3⟩ (headersOf
        [68, 97, 116, 101, 58, 32, 77, 111, 110, 44, 32, 48, 49, 32, 74, 97, 110, 32,
         50, 48, 50, 52, 32, 49, 50, 58, 48, 48, 58, 48, 48, 32, 43, 48, 48, 48, 48])
      = [77, 111, 110, 32, 74, 97, 110, 32, 48, 49, 32, 49, 50, 58, 48, 48, 58, 48,
         48, 32, 50, 48, 50, 52]
    ∧ dateFormattedOf ⟨2024, 5, 17, 1, 2, 3⟩ (headersOf [104, 105])
        = strftimeLayout ⟨2024, 5, 17, 1, 2, 3⟩
    ∧ dateFormattedOf ⟨2024, 5, 17, 1, 2, 3⟩ (headersOf
        [68, 97, 116, 101, 58, 32, 110, 111, 112, 101])
        = strftimeLayout ⟨2024, 5, 17, 1, 2, 3⟩ :=
  ⟨(claim_C5 ⟨2024, 5, 17, 1, 2, 3⟩ (by decide) _).1 (by decide),
   (claim_C5 ⟨2024, 5, 17, 1, 2, 3⟩ (by decide) _).2.1 (by decide),
   (claim_C5 ⟨2024, 5, 17, 1, 2, 3⟩ (by decide) _).2.2.1 [110, 111, 112, 101]
     (by decide) (by decide)⟩

/-! ### Sender-token well-formedness -/

theorem mem_takeWhile_pred {p : Nat → Bool} {l : List Nat} {a : Nat}
    (h : a ∈ l.takeWhile p) : p a = true := by
  induction l with
  | nil => cases h
  | cons c rest ih =>
    rw [List.takeWhile] at h
    cases hc : p c with
    | false =>
      rw [hc] at h
      cases h
    | true =>
      rw [hc] at h
      rcases List.mem_cons.mp h with h1 | h1
      · rw [h1]
        exact hc
      · exact ih h1

theorem dropWhile_head_false {p : Nat → Bool} {l r : List Nat} {c : Nat}
    (h : l.dropWhile p = c :: r) : p c = false := by
  induction l with
  | nil => cases h
  | cons x rest ih =>
    rw [List.dropWhile] at h
    cases hx : p x with
    | true =>
      rw [hx] at h
      exact ih h
    | false =>
      rw [hx] at h
      cases h
      exact hx

theorem matchValueTail_no10 {t v : List Nat} (h : matchValueTail t = some v) :
    10 ∉ v := by
  rw [matchValueTail] at h
  split at h
  · cases h
    intro hm
    have := mem_takeWhile_pred hm
    simp at this
  · split at h
    · cases h
    · next c r heq =>
      cases h
      intro hm
      rcases List.mem_cons.mp hm with h1 | h1
      · have := dropWhile_head_false heq
        simp at this
        exact this h1.symm
      · cases h1

theorem fhvAux_no10 (nm : List Nat) :
    ∀ (s : List Nat) (b : Bool) (v : List Nat), fhvAux nm s b = some v → 10 ∉ v := by
  intro s
  induction s with
  | nil =>
    intro b v h
    cases b with
    | true =>
      rw [fhvAux] at h
      split at h
      · next heq =>
        cases h
        split at heq
        · exact matchValueTail_no10 heq
        · cases heq
      · cases h
    | false => cases h
  | cons c rest ih =>
    intro b v h
    cases b with
    | true =>
      rw [fhvAux] at h
      split at h
      · next heq =>
        cases h
        split at heq
        · exact matchValueTail_no10 heq
        · cases heq
      · exact ih (c == 10) v h
    | false => exact ih (c == 10) v h

theorem findHeaderValue_no10 {nm s v : List Nat} (h : findHeaderValue nm s = some v) :
    10 ∉ v :=
  fhvAux_no10 nm s true v h

theorem pyStrip_subset {l : List Nat} : ∀ c ∈ pyStrip l, c ∈ l := by
  intro c hc
  unfold pyStrip at hc
  rw [List.mem_reverse] at hc
  have h1 := (List.dropWhile_sublist (l := (l.dropWhile wsChar).reverse) wsChar).subset hc
  rw [List.mem_reverse] at h1
  exact (List.dropWhile_sublist (l := l) wsChar).subset h1

theorem searchAngle_spec {l addr : List Nat} (h : searchAngle l = some addr) :
    addr ≠ [] ∧ ∀ c ∈ addr, c ∈ l := by
  induction l with
  | nil => cases h
  | cons c rest ih =>
    rw [searchAngle] at h
    split at h
    · dsimp only at h
      split at h
      · next hcond =>
        cases h
        refine ⟨fun he => hcond.1 (by rw [he]; rfl), ?_⟩
        intro x hx
        exact List.mem_cons_of_mem c ((List.takeWhile_sublist _).subset hx)
      · obtain ⟨h1, h2⟩ := ih h
        exact ⟨h1, fun x hx => List.mem_cons_of_mem c (h2 x hx)⟩
    · obtain ⟨h1, h2⟩ := ih h
      exact ⟨h1, fun x hx => List.mem_cons_of_mem c (h2 x hx)⟩

theorem pySplitWsAux_spec (K : List Nat) :
    ∀ (l acc : List Nat), (∀ c ∈ l, c ∈ K) → (∀ c ∈ acc, c ∈ K) →
      ∀ t ∈ pySplitWsAux l acc, t ≠ [] ∧ ∀ c ∈ t, c ∈ K := by
  intro l
  induction l with
  | nil =>
    intro acc hl hacc t ht
    rw [pySplitWsAux] at ht
    split at ht
    · cases ht
    · next hne =>
      rcases List.mem_cons.mp ht with h1 | h1
      · subst h1
        refine ⟨fun he => hne (by rw [List.isEmpty_iff]; simpa using he), ?_⟩
        intro c hc
        exact hacc c (by simpa using hc)
      · cases h1
  | cons c rest ih =>
    intro acc hl hacc t ht
    rw [pySplitWsAux] at ht
    by_cases hc : wsChar c
    · rw [if_pos hc] at ht
      split at ht
      · exact ih [] (fun x hx => hl x (by simp [hx])) (by simp) t ht
      · next hne =>
        rcases List.mem_cons.mp ht with h1 | h1
        · subst h1
          refine ⟨fun he => hne (by rw [List.isEmpty_iff]; simpa using he), ?_⟩
          intro x hx
          exact hacc x (by simpa using hx)
        · exact ih [] (fun x hx => hl x (by simp [hx])) (by simp) t h1
    · rw [if_neg hc] at ht
      refine ih (c :: acc) (fun x hx => hl x (by simp [hx])) ?_ t ht
      intro x hx
      rcases List.mem_cons.mp hx with h1 | h1
      · exact hl x (by simp [h1])
      · exact hacc x h1

theorem extractSender_spec (headers : List Nat) :
    extractSender headers ≠ [] ∧ 10 ∉ extractSender headers := by
  rw [extractSender]
  split
  · exact ⟨by decide, by decide⟩
  · next cap heq =>
    dsimp only
    have hcap : 10 ∉ cap := findHeaderValue_no10 heq
    have hraw : 10 ∉ pyStrip cap := fun hm => hcap (pyStrip_subset _ hm)
    split
    · next addr hangle =>
      obtain ⟨h1, h2⟩ := searchAngle_spec hangle
      exact ⟨h1, fun hm => hraw (h2 _ hm)⟩
    · split
      · split
        · next h64 h32 =>
          have h64m : 64 ∈ pyStrip cap := by simpa using h64
          have hne : pySplitWs (pyStrip cap) ≠ [] :=
            pySplitWs_ne_nil 64 h64m (by decide)
          cases hsp : pySplitWs (pyStrip cap) with
          | nil => exact absurd hsp hne
          | cons t ts =>
            have hspec := pySplitWsAux_spec (pyStrip cap) (pyStrip cap) []
              (fun c hc => hc) (by simp) t (by rw [← pySplitWs, hsp]; simp)
            exact ⟨hspec.1, fun hm => hraw (hspec.2 10 hm)⟩
        · next h64 _ =>
          refine ⟨?_, hraw⟩
          intro he
          rw [he] at h64
          cases h64
      · exact ⟨by decide, by decide⟩

/-! ### UTF-8 encoder lemmas -/

theorem utf8Encode_append (a b : List Nat) :
    utf8Encode (a ++ b) = utf8Encode a ++ utf8Encode b := by
  unfold utf8Encode
  rw [List.map_append, List.flatten_append]

theorem utf8EncodeChar_ascii {c : Nat} (h : c < 128) : utf8EncodeChar c = [c] := by
  rw [utf8EncodeChar, if_pos h]

theorem utf8Encode_ascii {l : List Nat} (h : ∀ c ∈ l, c < 128) : utf8Encode l = l := by
  induction l with
  | nil => rfl
  | cons c rest ih =>
    unfold utf8Encode at *
    rw [List.map_cons, List.flatten_cons, utf8EncodeChar_ascii (h c (by simp)),
      ih fun x hx => h x (by simp [hx])]
    rfl

theorem utf8EncodeChar_ne_nil (c : Nat) : utf8EncodeChar c ≠ [] := by
  rw [utf8EncodeChar]
  split
  · simp
  · split
    · simp
    · split <;> simp

theorem utf8EncodeChar_no10 {c : Nat} (h : c ≠ 10) : 10 ∉ utf8EncodeChar c := by
  rw [utf8EncodeChar]
  split
  · next h1 =>
    intro hm
    simp at hm
    exact h hm.symm
  · next h1 =>
    split
    · intro hm
      simp at hm
      rcases hm with hm | hm <;> omega
    · next h2 =>
      split
      · intro hm
        simp at hm
        rcases hm with hm | hm | hm <;> omega
      · next h3 =>
        intro hm
        simp at hm
        rcases hm with hm | hm | hm | hm <;> omega

theorem utf8Encode_ne_nil {l : List Nat} (h : l ≠ []) : utf8Encode l ≠ [] := by
  cases l with
  | nil => exact absurd rfl h
  | cons c rest =>
    unfold utf8Encode
    rw [List.map_cons, List.flatten_cons]
    intro he
    exact utf8EncodeChar_ne_nil c (List.append_eq_nil.mp he).1

theorem utf8Encode_no10 {l : List Nat} (h : 10 ∉ l) : 10 ∉ utf8Encode l := by
  intro hm
  unfold utf8Encode at hm
  rw [List.mem_flatten] at hm
  obtain ⟨w, hw, hmw⟩ := hm
  rw [List.mem_map] at hw
  obtain ⟨c, hc, rfl⟩ := hw
  exact utf8EncodeChar_no10 (fun he => h (he ▸ hc)) hmw

/-! ### C3: entry assembly -/

theorem processEmlx_join (now : PyDateTime) (files : List (List Nat × List Nat)) :
    (processEmlx now files).1
      = listJoin (((files.filterMap fun f => keptContent (parse_emlx f.2)).map
          (mboxEntry now))) := by
  induction files with
  | nil => rfl
  | cons f rest ih =>
    rw [processEmlx, List.filterMap_cons]
    cases hk : keptContent (parse_emlx f.2) with
    | none => exact ih
    | some c =>
      dsimp only
      rw [List.map_cons, listJoin, ih]

/-- **C3.** For every successfully decoded message, the entry appended to
the output container is exactly: an envelope first line
`From <token> <timestamp>` — the token nonempty and newline-free, the
timestamp in the fixed `<Weekday> <Month> <2-digit day> <HH:MM:SS>
<4-digit year>` layout — followed by a line terminator, then the escaped
message content, then a line terminator if the escaped content does not
already end with one, then one blank line; and the folder's output is the
concatenation of the entries of its kept messages with no other framing. -/
theorem claim_C3 (now : PyDateTime) (hWF : WFdt now) (content : List Nat)
    (files : List (List Nat × List Nat)) :
    (∃ tok ts, tok ≠ [] ∧ 10 ∉ tok ∧ checkTsLayout ts = true ∧
        mboxEntry now content
          = ([70, 114, 111, 109, 32] ++ tok ++ [32] ++ ts ++ [10])
            ++ escape_from_lines content
            ++ (if (escape_from_lines content).getLast? = some 10 then [] else [10])
            ++ [10])
      ∧ (processEmlx now files).1
          = listJoin (((files.filterMap fun f => keptContent (parse_emlx f.2)).map
              (mboxEntry now))) := by
  refine ⟨?_, processEmlx_join now files⟩
  obtain ⟨dt0, hdt0, hts⟩ := dateFormatted_shape now (headersOf content) hWF
  obtain ⟨hsne, hs10⟩ := extractSender_spec (headersOf content)
  obtain ⟨htsc, htsr⟩ := strftime_props dt0 hdt0
  refine ⟨utf8Encode (extractSender (headersOf content)), strftimeLayout dt0,
    utf8Encode_ne_nil hsne, utf8Encode_no10 hs10, htsc, ?_⟩
  rw [mboxEntry, get_from_line, hts]
  rw [show [70, 114, 111, 109, 32] ++ extractSender (headersOf content) ++ [32]
        ++ strftimeLayout dt0 ++ [10]
      = [70, 114, 111, 109, 32] ++ (extractSender (headersOf content) ++ ([32]
        ++ (strftimeLayout dt0 ++ [10]))) by simp]
  rw [utf8Encode_append, utf8Encode_append, utf8Encode_append, utf8Encode_append,
    utf8Encode_ascii (l := [70, 114, 111, 109, 32]) (by decide),
    utf8Encode_ascii (l := [32]) (by decide),
    utf8Encode_ascii (l := [10]) (by decide),
    utf8Encode_ascii (l := strftimeLayout dt0) (fun c hc => (htsr c hc).2)]
  simp

/-- Witness for C3 at a concrete clock, message and file list. -/
theorem claim_C3_witness :
    ∃ tok ts, tok ≠ [] ∧ 10 ∉ tok ∧ checkTsLayout ts = true ∧
      mboxEntry ⟨2024, 1, 1, 0, 0, 0⟩ [104, 105]
        = ([70, 114, 111, 109, 32] ++ tok ++ [32] ++ ts ++ [10])
          ++ escape_from_lines [104, 105]
          ++ (if (escape_from_lines [104, 105]).getLast? = some 10 then [] else [10])
          ++ [10] :=
  (claim_C3 ⟨2024, 1, 1, 0, 0, 0⟩ (by decide) [104, 105] []).1

end MacMailBackup
